import Mathlib

/-!
Verification of the record-shaping logic of the `gridy` repository.

The embedded code lives in `src/hbase_vs_sqlite_experiment/hbase_loader.py`
(class `OptimizedHBaseLoader`: `generate_simple_row_key`, `prepare_simple_data`,
`_safe_convert`) and `src/hbase_vs_sqlite_experiment/sqlite_loader.py`
(class `BasicSQLiteLoader`: `convert_to_number`).

Modelling conventions:
* A CSV row (`csv.DictReader` output) is a list of (header, cell) string pairs;
  `dict.get` is first-match lookup with a default.
* Python strings are Lean `String`s; slicing, `strip`, `lower` are modelled
  over the character list (`String.data`) with the ASCII whitespace set.
* `float(...)` is modelled by an exact decimal parser returning a rational,
  plus the `inf`/`infinity`/`nan` tokens; binary floating-point rounding of
  decimal literals is idealised away (decimal literals parse exactly, and
  `round(x, 2)` is banker's rounding of the exact rational).  `str(float)`
  is modelled as the positional shortest decimal form with at least one
  fractional digit; the scientific notation Python switches to at 1e16 and
  the `-0.0` artefact are outside the range any claim exercises.
* Exceptions cannot escape the embedded functions: the only fallible
  operations in the source (`float(...)`, `int(...)`) are modelled with
  `Option`, and their `except` handlers are the `none` branches, so every
  embedded function is total, mirroring the code's "never raise" contract.
-/

namespace Gridy

/-- A source row: mapping from CSV header name to raw cell value. -/
def Row := List (String × String)

/-- Python `row.get(k, d)` on a `DictReader` row (keys are unique per row). -/
def pyget (row : Row) (k d : String) : String :=
  match row.find? (fun p => p.1 == k) with
  | some p => p.2
  | none => d

/-- Python slice `s[:n]`. -/
def pyTake (s : String) (n : Nat) : String := ⟨s.data.take n⟩

/-- The ASCII whitespace characters removed by Python `str.strip()`. -/
def isPySpace (c : Char) : Bool :=
  c = ' ' || c = '\t' || c = '\n' || c = '\r' || c = Char.ofNat 11 || c = Char.ofNat 12

/-- Python `str.strip()`. -/
def pystrip (s : String) : String :=
  ⟨((s.data.dropWhile isPySpace).reverse.dropWhile isPySpace).reverse⟩

/-- Python `str.lower()` (ASCII range; the sentinel comparisons only involve ASCII). -/
def pylower (s : String) : String := ⟨s.data.map Char.toLower⟩

/-- The decimal digit character for `d % 10`. -/
def digitChar : Nat → Char
  | 0 => '0' | 1 => '1' | 2 => '2' | 3 => '3' | 4 => '4'
  | 5 => '5' | 6 => '6' | 7 => '7' | 8 => '8' | _ => '9'

/-- Numeric value of a digit character. -/
def digitVal (c : Char) : Nat := c.toNat - 48

/-- The ten ASCII digit characters. -/
def digitSet : List Char := ['0', '1', '2', '3', '4', '5', '6', '7', '8', '9']

/-- Is `c` an ASCII digit (the digit class of Python's number grammars)? -/
def isDig (c : Char) : Bool := decide (c ∈ digitSet)

/-- Worker for `natDigits`, structurally recursive on a fuel argument so
that the kernel can evaluate it. -/
def natDigitsAux : Nat → Nat → List Char
  | 0, _ => []
  | fuel + 1, n =>
    if n < 10 then [digitChar n]
    else natDigitsAux fuel (n / 10) ++ [digitChar (n % 10)]

/-- Decimal digit string of a natural number (most significant digit first). -/
def natDigits (n : Nat) : List Char := natDigitsAux (n + 1) n

/-- Value of a decimal digit list. -/
def natVal (l : List Char) : Nat := l.foldl (fun a c => 10 * a + digitVal c) 0

/-- Python `f"{c:08d}"` for a non-negative counter. -/
def padCounter (c : Nat) : String :=
  ⟨List.replicate (8 - (natDigits c).length) '0' ++ natDigits c⟩

/-- `OptimizedHBaseLoader.generate_simple_row_key` (hbase_loader.py lines 120-134). -/
def generate_simple_row_key (row : Row) (counter : Nat) : String :=
  let platform := pyTake (pyget row "Platform" "unknown") 10
  let post_id := pyget row "Post ID" ""
  let post_id_short := if post_id.data.length > 8 then pyTake post_id 8 else post_id
  platform ++ "_" ++ post_id_short ++ "_" ++ padCounter counter

/-- Result type of Python `float(...)`: a finite value (exact rational), an
infinity, or `nan`. -/
inductive PyFloat where
  | finite (q : ℚ)
  | inf
  | neginf
  | nan
deriving DecidableEq

/-- A Python number as returned by `_safe_convert` / `convert_to_number`:
either an `int` or a `float`. -/
inductive PyNum where
  | int (z : ℤ)
  | fl (f : PyFloat)
deriving DecidableEq

/-- Exponent part of a float literal: either empty or `(e|E)[+|-]digits`,
consuming the whole remaining input. -/
def parseExp : List Char → Option ℤ
  | [] => some 0
  | c :: rest =>
    if c = 'e' || c = 'E' then
      match rest with
      | '+' :: ds => if ds ≠ [] ∧ ds.all isDig then some (natVal ds) else none
      | '-' :: ds => if ds ≠ [] ∧ ds.all isDig then some (-(natVal ds : ℤ)) else none
      | ds => if ds ≠ [] ∧ ds.all isDig then some (natVal ds) else none
    else none

/-- The exact rational value of the decimal literal with integer part `ipv`,
fractional part `fpv` of `fplen` digits, and exponent `e`:
`(ipv * 10 ^ fplen + fpv) * 10 ^ (e - fplen)`.  Built from `mkRat` and
`Nat` arithmetic so the kernel can evaluate it. -/
def decValue (ipv fpv fplen : ℕ) (e : ℤ) : ℚ :=
  let m : ℕ := ipv * 10 ^ fplen + fpv
  let k : ℤ := e - fplen
  if 0 ≤ k then ((m * 10 ^ k.toNat : ℕ) : ℚ)
  else mkRat m (10 ^ (-k).toNat)

/-- Unsigned decimal float literal: `digits[.digits][exp]` or `.digits[exp]`,
with at least one digit in the mantissa. -/
def parseDecCore (cs : List Char) : Option ℚ :=
  let ip := cs.takeWhile isDig
  let rest := cs.dropWhile isDig
  match rest with
  | '.' :: rest2 =>
    let fp := rest2.takeWhile isDig
    let rest3 := rest2.dropWhile isDig
    if ip = [] ∧ fp = [] then none
    else
      match parseExp rest3 with
      | some e => some (decValue (natVal ip) (natVal fp) fp.length e)
      | none => none
  | _ =>
    if ip = [] then none
    else
      match parseExp rest with
      | some e => some (decValue (natVal ip) 0 0 e)
      | none => none

/-- Body of `float(...)` after the optional sign has been consumed. -/
def pyfloatSigned (neg : Bool) (cs : List Char) : Option PyFloat :=
  let low := cs.map Char.toLower
  if low = ['i', 'n', 'f'] ∨ low = ['i', 'n', 'f', 'i', 'n', 'i', 't', 'y'] then
    some (if neg then .neginf else .inf)
  else if low = ['n', 'a', 'n'] then some .nan
  else
    match parseDecCore cs with
    | some q => some (.finite (if neg then mkRat (-q.num) q.den else q))
    | none => none

/-- Python `float(s)` on an already-stripped string; `none` models the
`ValueError` it raises on non-numeric input.  (`float` itself strips
surrounding whitespace, so call sites pass the stripped value.) -/
def pyfloat (s : String) : Option PyFloat :=
  match s.data with
  | [] => none
  | d :: r =>
    if d = '+' then pyfloatSigned false r
    else if d = '-' then pyfloatSigned true r
    else pyfloatSigned false (d :: r)

/-- Body of `int(...)` after the optional sign has been consumed. -/
def pyintSigned (neg : Bool) (ds : List Char) : Option ℤ :=
  if ds ≠ [] ∧ ds.all isDig then
    some (if neg then -(natVal ds : ℤ) else (natVal ds : ℤ))
  else none

/-- Python `int(s)` on an already-stripped string; `none` models the
`ValueError`. -/
def pyint (s : String) : Option ℤ :=
  match s.data with
  | [] => none
  | d :: r =>
    if d = '+' then pyintSigned false r
    else if d = '-' then pyintSigned true r
    else pyintSigned false (d :: r)

/-- Round to the nearest integer, ties to even (Python's rounding mode):
`n` is the floor (`x.den` is positive, so `Int.fdiv` of the parts) and `r2`
twice the remainder, so `r2 < den`/`den < r2`/tie decides the direction. -/
def roundHalfEven (x : ℚ) : ℤ :=
  let n := Int.fdiv x.num x.den
  let r2 := 2 * (x.num - n * x.den)
  if r2 < (x.den : ℤ) then n
  else if (x.den : ℤ) < r2 then n + 1
  else if n % 2 = 0 then n else n + 1

/-- Python `round(q, 2)` on the exact rational value:
`roundHalfEven (q * 100) / 100`. -/
def pyRound2 (q : ℚ) : ℚ := mkRat (roundHalfEven (mkRat (q.num * 100) q.den)) 100

/-- Python `float.is_integer()`. -/
def isIntegerF : PyFloat → Bool
  | .finite q => q.den == 1
  | _ => false

/-- The guard `abs(float_val) < 2147483647` from `_safe_convert`
(comparisons against `nan` are false): `|num| / den < c` iff
`|num| < c * den`. -/
def absLtInt32 : PyFloat → Bool
  | .finite q => decide (q.num.natAbs < 2147483647 * q.den)
  | _ => false

/-- Python `int(float_val)` on a whole-valued finite float. -/
def toIntF : PyFloat → ℤ
  | .finite q => q.num
  | _ => 0

/-- Python `round(f, 2)` on a float (`inf`/`nan` round to themselves). -/
def roundF : PyFloat → PyFloat
  | .finite q => .finite (pyRound2 q)
  | f => f

/-- `OptimizedHBaseLoader._safe_convert` (hbase_loader.py lines 203-228).
The `except ValueError` / `except Exception` handlers are the `none` branch
of the parse: every failure path returns `0`. -/
def _safe_convert (value : String) : PyNum :=
  if value = "" ∨ pystrip value ∈ (["", "nan", "None", "null"] : List String) then .int 0
  else
    match pyfloat (pystrip value) with
    | none => .int 0
    | some f =>
      if isIntegerF f && absLtInt32 f then .int (toIntF f) else .fl (roundF f)

/-- Decimal string of a Python `int`. -/
def intRepr (z : ℤ) : String :=
  if z < 0 then ⟨'-' :: natDigits z.natAbs⟩ else ⟨natDigits z.natAbs⟩

/-- Fractional digits of a two-decimal value `f ∈ [0, 100)`, with the
trailing zero trimmed as Python `str(float)` does. -/
def fracDigits (f : Nat) : List Char :=
  if f % 10 = 0 then [digitChar (f / 10)] else [digitChar (f / 10), digitChar (f % 10)]

/-- Python `str(x)` for a finite float whose value has at most two decimals
(every float reaching `str` in `prepare_simple_data` has been rounded):
`n` is `⌊|q| * 100⌋ = |num| * 100 / den` in `Nat` arithmetic. -/
def floatRepr (q : ℚ) : String :=
  let n := q.num.natAbs * 100 / q.den
  let sign : List Char := if q.num < 0 then ['-'] else []
  ⟨sign ++ natDigits (n / 100) ++ '.' :: fracDigits (n % 100)⟩

/-- Python `str(f)` for a float. -/
def renderF : PyFloat → String
  | .finite q => floatRepr q
  | .inf => "inf"
  | .neginf => "-inf"
  | .nan => "nan"

/-- Python `str(value)` for the result of `_safe_convert`. -/
def renderPyNum : PyNum → String
  | .int z => intRepr z
  | .fl f => renderF f

/-- The `basic_mapping` dict of `prepare_simple_data` (hbase_loader.py
lines 142-155), in insertion order. -/
def basic_mapping : List (String × String) :=
  [("Platform", "platform"), ("Post ID", "post_id"), ("Post Type", "post_type"),
   ("Post Content", "post_content"), ("Post Timestamp", "post_timestamp"),
   ("Audience Age", "audience_age"), ("Audience Gender", "audience_gender"),
   ("Audience Location", "audience_location"), ("Audience Interests", "audience_interests"),
   ("Campaign ID", "campaign_id"), ("Sentiment", "sentiment"), ("Influencer ID", "influencer_id")]

/-- The per-field truncation applied at hbase_loader.py lines 160-168. -/
def textLimit (csv_field : String) : Nat :=
  if csv_field = "Post Content" then 500
  else if csv_field = "Audience Interests" then 200
  else if csv_field = "Audience Location" then 100
  else 50

/-- The `cf` family loop of `prepare_simple_data` (lines 157-170): strip,
drop sentinel values, truncate, store under `cf:<field>`. -/
def shapeText (row : Row) : List (String × String) :=
  basic_mapping.filterMap (fun ch =>
    let value := pystrip (pyget row ch.1 "")
    if value ≠ "" ∧ pylower value ∉ (["nan", "none", ""] : List String) then
      some ("cf:" ++ ch.2, pyTake value (textLimit ch.1))
    else none)

/-- The `metrics_mapping` dict of `prepare_simple_data` (lines 174-181). -/
def metrics_mapping : List (String × String) :=
  [("Likes", "likes"), ("Comments", "comments"), ("Shares", "shares"),
   ("Impressions", "impressions"), ("Reach", "reach"), ("Engagement Rate", "engagement_rate")]

/-- The `metrics` family loop (lines 183-186).  The source guard
`if value is not None` is always true (`_safe_convert` never returns `None`),
so every metric is emitted. -/
def shapeMetrics (row : Row) : List (String × String) :=
  metrics_mapping.map (fun ch =>
    ("metrics:" ++ ch.2, renderPyNum (_safe_convert (pyget row ch.1 "0"))))

/-- The guard of the byte-conversion loop (line 194): `if value and
str(value).strip()`. -/
def keepByte (v : String) : Bool := !(v == "") && !(pystrip v == "")

/-- `OptimizedHBaseLoader.prepare_simple_data` (lines 136-201).  UTF-8
encoding (lines 192-199) is the identity on the string content and cannot
fail on well-formed strings, so the model keeps the values themselves. -/
def prepare_simple_data (row : Row) : List (String × String) :=
  let data := shapeText row ++ shapeMetrics row
  if data = [] then []
  else data.filter (fun kv => keepByte kv.2)

/-- `BasicSQLiteLoader.convert_to_number` (sqlite_loader.py lines 114-124);
`none` is Python `None`.  The bare `except` is the `none` branch of the
parses. -/
def convert_to_number (value : String) : Option PyNum :=
  if value = "" ∨ pystrip value ∈ (["", "nan", "None"] : List String) then none
  else if '.' ∈ value.data then
    match pyfloat (pystrip value) with
    | some f => some (.fl f)
    | none => none
  else
    match pyint (pystrip value) with
    | some z => some (.int z)
    | none => none

/-- The per-key character budget of the `cf` family, keyed by qualified
column name (hbase_loader.py lines 160-168). -/
def cfBudget (k : String) : Nat :=
  if k = "cf:post_content" then 500
  else if k = "cf:audience_interests" then 200
  else if k = "cf:audience_location" then 100
  else 50

/-- Modelled from the spec: the `hashed` mode of `makeKey` (spec §4.1) has no
implementation under `src/` — `hashlib` is imported at hbase_loader.py line 10
but never used.  This parses `post_timestamp` in the spec's expected format
`"YYYY-MM-DD HH:MM:SS"` to a `YYYYMMDD` string (digit-shape check only; range
validity of month or day is below the spec's level of detail). -/
def parseTsDate (s : String) : Option String :=
  match s.data with
  | [y1, y2, y3, y4, '-', o1, o2, '-', d1, d2, ' ', h1, h2, ':', i1, i2, ':', s1, s2] =>
    if [y1, y2, y3, y4, o1, o2, d1, d2, h1, h2, i1, i2, s1, s2].all isDig then
      some ⟨[y1, y2, y3, y4, o1, o2, d1, d2]⟩
    else none
  | _ => none

/-- Modelled from the spec: the fixed fallback date of the hashed key mode
(the spec fixes only that it is a constant). -/
def defaultDateStr : String := "20230101"

/-- Modelled from the spec: "a standard content hash" — modelled as a
deterministic 32-bit string hash (the spec does not pin the algorithm, only
that it is a pure content hash rendered as 8 hex characters). -/
def specHash32 (s : String) : ℕ :=
  s.data.foldl (fun a c => (a * 33 + c.toNat) % 4294967296) 5381

/-- Hex digit characters. -/
def hexChar : ℕ → Char
  | 0 => '0' | 1 => '1' | 2 => '2' | 3 => '3' | 4 => '4' | 5 => '5' | 6 => '6'
  | 7 => '7' | 8 => '8' | 9 => '9' | 10 => 'a' | 11 => 'b' | 12 => 'c' | 13 => 'd'
  | 14 => 'e' | _ => 'f'

/-- Modelled from the spec: the 8-character hex digest of the content hash. -/
def hexDigest8 (s : String) : String :=
  ⟨(List.range 8).map (fun i => hexChar (specHash32 s / 16 ^ (7 - i) % 16))⟩

/-- Modelled from the spec: `makeKey` in `hashed` mode composes
`"{date:YYYYMMDD}_{platform}_{hashdigest}"`, the digest hashing
`platform + "_" + post_id`; missing fields degrade to defaults. -/
def makeKeyHashed (row : Row) : String :=
  let platform := pyget row "Platform" "unknown"
  let post_id := pyget row "Post ID" ""
  let date := (parseTsDate (pyget row "Post Timestamp" "")).getD defaultDateStr
  date ++ "_" ++ platform ++ "_" ++ hexDigest8 (platform ++ "_" ++ post_id)

/-! ### Basic lemmas about the string model -/

theorem data_append (a b : String) : (a ++ b).data = a.data ++ b.data := rfl

theorem takeWhile_append_not {α : Type} (p : α → Bool) (a : List α) (b : α) (c : List α)
    (ha : ∀ x ∈ a, p x = true) (hb : p b = false) :
    (a ++ b :: c).takeWhile p = a := by
  induction a with
  | nil => simp [List.takeWhile_cons, hb]
  | cons x xs ih =>
    have hx : p x = true := ha x (by simp)
    simp [List.takeWhile_cons, hx, ih (fun y hy => ha y (by simp [hy]))]

theorem dropWhile_append_not {α : Type} (p : α → Bool) (a : List α) (b : α) (c : List α)
    (ha : ∀ x ∈ a, p x = true) (hb : p b = false) :
    (a ++ b :: c).dropWhile p = b :: c := by
  induction a with
  | nil => simp [List.dropWhile_cons, hb]
  | cons x xs ih =>
    have hx : p x = true := ha x (by simp)
    simp [List.dropWhile_cons, hx, ih (fun y hy => ha y (by simp [hy]))]

/-- If two strings of shape `prefix ++ "_" ++ tail` agree and neither tail
contains an underscore, the tails agree (the tail is everything after the
last underscore). -/
theorem last_seg_eq {l1 l2 p1 p2 : List Char}
    (h1 : ∀ c ∈ p1, c ≠ '_') (h2 : ∀ c ∈ p2, c ≠ '_')
    (h : l1 ++ '_' :: p1 = l2 ++ '_' :: p2) : p1 = p2 := by
  have hr := congrArg List.reverse h
  simp only [List.reverse_append, List.reverse_cons, List.append_assoc,
    List.singleton_append] at hr
  have e1 : ∀ x ∈ p1.reverse, (x != '_') = true := by
    intro x hx
    simpa using h1 x (List.mem_reverse.mp hx)
  have e2 : ∀ x ∈ p2.reverse, (x != '_') = true := by
    intro x hx
    simpa using h2 x (List.mem_reverse.mp hx)
  have ht := congrArg (List.takeWhile (fun c => c != '_')) hr
  rw [takeWhile_append_not _ _ _ _ e1 (by simp), takeWhile_append_not _ _ _ _ e2 (by simp)] at ht
  exact List.reverse_injective ht

theorem digitChar_mem (d : Nat) : digitChar d ∈ digitSet := by
  unfold digitChar
  split <;> decide

theorem mem_digitSet_ne_underscore {c : Char} (h : c ∈ digitSet) : c ≠ '_' := by
  fin_cases h <;> decide

theorem digitVal_digitChar {d : Nat} (h : d < 10) : digitVal (digitChar d) = d := by
  interval_cases d <;> rfl

theorem natDigitsAux_ne_nil : ∀ fuel n, n < fuel → natDigitsAux fuel n ≠ [] := by
  intro fuel
  induction fuel with
  | zero => omega
  | succ fuel _ =>
    intro n _
    rw [natDigitsAux]
    split <;> simp

theorem natDigits_ne_nil (n : Nat) : natDigits n ≠ [] :=
  natDigitsAux_ne_nil (n + 1) n (by omega)

theorem natDigitsAux_all_digit :
    ∀ fuel n, ∀ c ∈ natDigitsAux fuel n, c ∈ digitSet := by
  intro fuel
  induction fuel with
  | zero => simp [natDigitsAux]
  | succ fuel ih =>
    intro n c hc
    rw [natDigitsAux] at hc
    split at hc
    · rw [List.mem_singleton] at hc
      subst hc
      exact digitChar_mem n
    · rcases List.mem_append.mp hc with hc | hc
      · exact ih (n / 10) c hc
      · rw [List.mem_singleton] at hc
        subst hc
        exact digitChar_mem (n % 10)

theorem natDigits_all_digit (n : Nat) : ∀ c ∈ natDigits n, c ∈ digitSet :=
  natDigitsAux_all_digit (n + 1) n

theorem natVal_append_singleton (l : List Char) (c : Char) :
    natVal (l ++ [c]) = 10 * natVal l + digitVal c := by
  simp [natVal, List.foldl_append]

theorem natVal_natDigitsAux : ∀ fuel n, n < fuel → natVal (natDigitsAux fuel n) = n := by
  intro fuel
  induction fuel with
  | zero => omega
  | succ fuel ih =>
    intro n hn
    rw [natDigitsAux]
    split
    · next h =>
      simp [natVal, digitVal_digitChar h]
    · next h =>
      have hlt : n / 10 < n := Nat.div_lt_self (by omega) (by omega)
      rw [natVal_append_singleton, ih (n / 10) (by omega),
        digitVal_digitChar (Nat.mod_lt _ (by omega))]
      omega

theorem natVal_natDigits (n : Nat) : natVal (natDigits n) = n :=
  natVal_natDigitsAux (n + 1) n (by omega)

theorem natVal_replicate_zero (k : Nat) (l : List Char) :
    natVal (List.replicate k '0' ++ l) = natVal l := by
  induction k with
  | zero => simp
  | succ k ih =>
    have : List.replicate (k + 1) '0' ++ l = '0' :: (List.replicate k '0' ++ l) := by
      simp [List.replicate_succ]
    rw [this]
    simpa [natVal, digitVal] using ih

theorem natVal_padCounter (c : Nat) : natVal (padCounter c).data = c := by
  show natVal (List.replicate _ '0' ++ natDigits c) = c
  rw [natVal_replicate_zero, natVal_natDigits]

theorem padCounter_no_underscore (n : Nat) : ∀ c ∈ (padCounter n).data, c ≠ '_' := by
  intro c hc
  rcases List.mem_append.mp hc with hc | hc
  · rw [List.eq_of_mem_replicate hc]
    decide
  · exact mem_digitSet_ne_underscore (natDigits_all_digit n c hc)

theorem padCounter_injective {a b : Nat} (h : padCounter a = padCounter b) : a = b := by
  have := congrArg (fun s => natVal s.data) h
  simpa [natVal_padCounter] using this

theorem generate_key_data (row : Row) (counter : Nat) :
    (generate_simple_row_key row counter).data =
      ((pyTake (pyget row "Platform" "unknown") 10).data ++
        '_' :: (if (pyget row "Post ID" "").data.length > 8 then
                  pyTake (pyget row "Post ID" "") 8
                else pyget row "Post ID" "").data) ++
      '_' :: (padCounter counter).data := by
  show ((((pyTake (pyget row "Platform" "unknown") 10) ++ "_" ++ _) ++ "_") ++
      padCounter counter).data = _
  simp [data_append, List.append_assoc]

/-! ### Claim theorems: sequential row keys -/

/-- C2: in sequential mode the row key is `platform[:10] ++ "_" ++
post_id[:8] ++ "_" ++ counter` zero-padded to (at least) 8 digits, with
`"unknown"` as default platform; on the row
`{"Platform": "Instagram", "Post ID": "abc12345678"}` with counter 3 the
key is `"Instagram_abc12345_00000003"`. -/
theorem sequential_key_format (row : Row) (counter : Nat) :
    generate_simple_row_key row counter =
      pyTake (pyget row "Platform" "unknown") 10 ++ "_" ++
        pyTake (pyget row "Post ID" "") 8 ++ "_" ++ padCounter counter ∧
    generate_simple_row_key [("Platform", "Instagram"), ("Post ID", "abc12345678")] 3 =
      "Instagram_abc12345_00000003" := by
  constructor
  · have h8 : (if (pyget row "Post ID" "").data.length > 8 then pyTake (pyget row "Post ID" "") 8
        else pyget row "Post ID" "") = pyTake (pyget row "Post ID" "") 8 := by
      split
      · rfl
      · next h =>
        show _ = (⟨(pyget row "Post ID" "").data.take 8⟩ : String)
        rw [List.take_of_length_le (by omega)]
    show pyTake (pyget row "Platform" "unknown") 10 ++ "_" ++ _ ++ "_" ++ padCounter counter = _
    rw [h8]
  · decide

/-- C3: the sequential key is injective in the counter: whatever the two
rows are, distinct counters give distinct keys (the zero-padded counter is
the digits-only segment after the last underscore). -/
theorem sequential_key_injective_counter (r1 r2 : Row) (c1 c2 : Nat) (h : c1 ≠ c2) :
    generate_simple_row_key r1 c1 ≠ generate_simple_row_key r2 c2 := by
  intro he
  have hd := congrArg String.data he
  rw [generate_key_data, generate_key_data] at hd
  have hp := last_seg_eq (padCounter_no_underscore c1) (padCounter_no_underscore c2) hd
  exact h (padCounter_injective (congrArg String.mk hp))

/-- Witness for C3 at concrete inputs. -/
theorem sequential_key_injective_counter_witness :
    generate_simple_row_key [] 0 ≠ generate_simple_row_key [] 1 :=
  sequential_key_injective_counter [] [] 0 1 (by decide)

/-! ### Lemmas about stripping and the rendered numeric strings -/

theorem dropWhile_eq_self_of {α : Type} {p : α → Bool} {l : List α}
    (h : ∀ x ∈ l, p x = false) : l.dropWhile p = l := by
  cases l with
  | nil => rfl
  | cons x xs => exact List.dropWhile_cons_of_neg (by simp [h x (by simp)])

theorem strip_eq_self {s : String} (h : ∀ c ∈ s.data, isPySpace c = false) :
    pystrip s = s := by
  unfold pystrip
  rw [dropWhile_eq_self_of h,
    dropWhile_eq_self_of (fun x hx => h x (List.mem_reverse.mp hx)),
    List.reverse_reverse]

theorem not_space_of_digit {c : Char} (h : c ∈ digitSet) : isPySpace c = false := by
  fin_cases h <;> decide

theorem fracDigits_all_digit (f : Nat) : ∀ c ∈ fracDigits f, c ∈ digitSet := by
  unfold fracDigits
  split <;>
    · intro c hc
      simp only [List.mem_singleton, List.mem_cons, List.mem_nil_iff, or_false] at hc
      first
      | (subst hc; exact digitChar_mem _)
      | (rcases hc with hc | hc <;> (subst hc; exact digitChar_mem _))

theorem intRepr_data (z : ℤ) :
    (intRepr z).data = if z < 0 then '-' :: natDigits z.natAbs else natDigits z.natAbs := by
  unfold intRepr
  split <;> rfl

theorem intRepr_spec (z : ℤ) :
    (intRepr z).data ≠ [] ∧ ∀ c ∈ (intRepr z).data, isPySpace c = false := by
  rw [intRepr_data]
  split
  · refine ⟨by simp, ?_⟩
    intro c hc
    rcases List.mem_cons.mp hc with hc | hc
    · subst hc; decide
    · exact not_space_of_digit (natDigits_all_digit _ c hc)
  · exact ⟨natDigits_ne_nil _, fun c hc => not_space_of_digit (natDigits_all_digit _ c hc)⟩

theorem floatRepr_data (q : ℚ) :
    (floatRepr q).data =
      (if q.num < 0 then ['-'] else []) ++
        natDigits (q.num.natAbs * 100 / q.den / 100) ++
        '.' :: fracDigits (q.num.natAbs * 100 / q.den % 100) := rfl

theorem floatRepr_spec (q : ℚ) :
    (floatRepr q).data ≠ [] ∧ ∀ c ∈ (floatRepr q).data, isPySpace c = false := by
  rw [floatRepr_data]
  constructor
  · simp
  · intro c hc
    rcases List.mem_append.mp hc with hc | hc
    · rcases List.mem_append.mp hc with hc | hc
      · split at hc
        · rw [List.mem_singleton] at hc
          subst hc; decide
        · simp at hc
      · exact not_space_of_digit (natDigits_all_digit _ c hc)
    · rcases List.mem_cons.mp hc with hc | hc
      · subst hc; decide
      · exact not_space_of_digit (fracDigits_all_digit _ c hc)

theorem renderPyNum_ne_nil_no_space (p : PyNum) :
    (renderPyNum p).data ≠ [] ∧ ∀ c ∈ (renderPyNum p).data, isPySpace c = false := by
  cases p with
  | int z => exact intRepr_spec z
  | fl f =>
    cases f with
    | finite q => exact floatRepr_spec q
    | inf => exact ⟨by decide, by decide⟩
    | neginf => exact ⟨by decide, by decide⟩
    | nan => exact ⟨by decide, by decide⟩

theorem ne_empty_of_data_ne_nil {s : String} (h : s.data ≠ []) : s ≠ "" := by
  intro he
  subst he
  exact h rfl

theorem keepByte_renderPyNum (p : PyNum) : keepByte (renderPyNum p) = true := by
  obtain ⟨hne, hns⟩ := renderPyNum_ne_nil_no_space p
  have hs : pystrip (renderPyNum p) = renderPyNum p := strip_eq_self hns
  have hne' : renderPyNum p ≠ "" := ne_empty_of_data_ne_nil hne
  simp [keepByte, hs, hne']

/-! ### Lookup lemmas for the shaped record -/

theorem lookup_append_left_none {α β : Type} [BEq α] {l1 l2 : List (α × β)} {a : α}
    (h : l1.lookup a = none) : (l1 ++ l2).lookup a = l2.lookup a := by
  induction l1 with
  | nil => rfl
  | cons p t ih =>
    obtain ⟨k, b⟩ := p
    rw [List.cons_append]
    simp only [List.lookup] at h ⊢
    cases hb : a == k with
    | true => rw [hb] at h; exact absurd h (by simp)
    | false => rw [hb] at h; exact ih h

theorem lookup_eq_none_of {α β : Type} [BEq α] {l : List (α × β)} {a : α}
    (h : ∀ p ∈ l, (a == p.1) = false) : l.lookup a = none := by
  induction l with
  | nil => rfl
  | cons p t ih =>
    have hp := h p (by simp)
    obtain ⟨k, b⟩ := p
    simp only [List.lookup]
    rw [hp]
    exact ih (fun q hq => h q (by simp [hq]))

theorem prepare_eq_filter (row : Row) :
    prepare_simple_data row =
      (shapeText row).filter (fun kv => keepByte kv.2) ++
        (shapeMetrics row).filter (fun kv => keepByte kv.2) := by
  unfold prepare_simple_data
  have hne : shapeText row ++ shapeMetrics row ≠ [] := by
    intro h
    have h2 := (List.append_eq_nil.mp h).2
    simp [shapeMetrics, metrics_mapping] at h2
  rw [if_neg hne, List.filter_append]

theorem filter_shapeMetrics (row : Row) :
    (shapeMetrics row).filter (fun kv => keepByte kv.2) = shapeMetrics row := by
  apply List.filter_eq_self.mpr
  intro kv hkv
  obtain ⟨ch, _, he⟩ := List.mem_map.mp hkv
  rw [← he]
  exact keepByte_renderPyNum _

theorem lookup_shapeMetrics (row : Row) (c h : String) (hm : (c, h) ∈ metrics_mapping) :
    (shapeMetrics row).lookup ("metrics:" ++ h) =
      some (renderPyNum (_safe_convert (pyget row c "0"))) := by
  fin_cases hm <;> rfl

/-- Every key produced by the `cf` loop has the form `"cf:" ++ field`. -/
theorem mem_shapeText_iff (row : Row) (k v : String) :
    (k, v) ∈ shapeText row ↔
      ∃ p ∈ basic_mapping,
        (pystrip (pyget row p.1 "") ≠ "" ∧
          pylower (pystrip (pyget row p.1 "")) ∉ (["nan", "none", ""] : List String)) ∧
        k = "cf:" ++ p.2 ∧ v = pyTake (pystrip (pyget row p.1 "")) (textLimit p.1) := by
  unfold shapeText
  rw [List.mem_filterMap]
  constructor
  · rintro ⟨p, hp, hf⟩
    dsimp only at hf
    split at hf
    · next hcond =>
      obtain ⟨hk, hv⟩ := Prod.mk.injEq .. ▸ Option.some.inj hf
      exact ⟨p, hp, hcond, hk.symm, hv.symm⟩
    · exact absurd hf (by simp)
  · rintro ⟨p, hp, hcond, rfl, rfl⟩
    refine ⟨p, hp, ?_⟩
    dsimp only
    rw [if_pos hcond]

theorem cf_ne_metrics (a b : String) : ("cf:" ++ a) ≠ ("metrics:" ++ b) := by
  intro h
  have hd := congrArg String.data h
  rw [data_append, data_append] at hd
  have hh := congrArg List.head? hd
  rw [show ("cf:".data ++ a.data).head? = some 'c' from rfl,
    show ("metrics:".data ++ b.data).head? = some 'm' from rfl] at hh
  exact absurd hh (by decide)

theorem cf_append_inj {a b : String} (h : ("cf:" ++ a) = ("cf:" ++ b)) : a = b := by
  have hd := congrArg String.data h
  rw [data_append, data_append] at hd
  exact congrArg String.mk (List.append_cancel_left hd)

theorem lookup_filterText_metrics_none (row : Row) (h : String) :
    ((shapeText row).filter (fun kv => keepByte kv.2)).lookup ("metrics:" ++ h) = none := by
  apply lookup_eq_none_of
  intro p hp
  obtain ⟨k, v⟩ := p
  have hp2 := (List.mem_filter.mp hp).1
  obtain ⟨q, _, _, hk, _⟩ := (mem_shapeText_iff row k v).mp hp2
  rw [beq_eq_false_iff_ne, hk]
  exact Ne.symm (cf_ne_metrics _ _)

/-- The shaped record always exposes each metric under `metrics:<field>`,
holding the stringified `_safe_convert` of the raw cell (default `"0"`). -/
theorem lookup_prepare_metrics (row : Row) (c h : String) (hm : (c, h) ∈ metrics_mapping) :
    (prepare_simple_data row).lookup ("metrics:" ++ h) =
      some (renderPyNum (_safe_convert (pyget row c "0"))) := by
  rw [prepare_eq_filter, lookup_append_left_none (lookup_filterText_metrics_none row h),
    filter_shapeMetrics, lookup_shapeMetrics row c h hm]

/-! ### The rendered numeric strings re-parse under `float(...)` -/

theorem takeWhile_eq_self_of {α : Type} {p : α → Bool} {l : List α}
    (h : ∀ x ∈ l, p x = true) : l.takeWhile p = l := by
  induction l with
  | nil => rfl
  | cons x xs ih =>
    rw [List.takeWhile_cons_of_pos (h x (by simp)), ih (fun y hy => h y (by simp [hy]))]

theorem dropWhile_eq_nil_of {α : Type} {p : α → Bool} {l : List α}
    (h : ∀ x ∈ l, p x = true) : l.dropWhile p = [] := by
  induction l with
  | nil => rfl
  | cons x xs ih =>
    rw [List.dropWhile_cons_of_pos (h x (by simp)), ih (fun y hy => h y (by simp [hy]))]

theorem isDig_of_mem {c : Char} (h : c ∈ digitSet) : isDig c = true := by
  simp [isDig, h]

theorem mem_of_isDig {c : Char} (h : isDig c = true) : c ∈ digitSet := by
  simpa [isDig] using h

theorem decValue_nat (n : ℕ) : decValue n 0 0 0 = (n : ℚ) := by
  simp [decValue]

theorem parseDecCore_digits {ds : List Char} (h1 : ds ≠ [])
    (h2 : ∀ c ∈ ds, c ∈ digitSet) :
    parseDecCore ds = some ((natVal ds : ℚ)) := by
  simp only [parseDecCore]
  rw [takeWhile_eq_self_of (fun c hc => isDig_of_mem (h2 c hc)),
    dropWhile_eq_nil_of (fun c hc => isDig_of_mem (h2 c hc))]
  show (if ds = [] then none
    else match parseExp [] with
      | some e => some (decValue (natVal ds) 0 0 e)
      | none => none) = _
  rw [if_neg h1]
  show some (decValue (natVal ds) 0 0 0) = _
  rw [decValue_nat]

theorem map_toLower_digits {ds : List Char} (h : ∀ c ∈ ds, c ∈ digitSet) :
    ds.map Char.toLower = ds := by
  have he : ∀ c ∈ ds, Char.toLower c = c := by
    intro c hc
    have hm := h c hc
    fin_cases hm <;> rfl
  rw [List.map_congr_left he]
  exact List.map_id' ds

theorem pyfloatSigned_digits {ds : List Char} (h1 : ds ≠ [])
    (h2 : ∀ c ∈ ds, c ∈ digitSet) (neg : Bool) :
    pyfloatSigned neg ds ≠ none := by
  simp only [pyfloatSigned]
  rw [map_toLower_digits h2]
  have hinf : ¬(ds = ['i', 'n', 'f'] ∨ ds = ['i', 'n', 'f', 'i', 'n', 'i', 't', 'y']) := by
    rintro (rfl | rfl) <;> exact absurd (h2 'i' (by simp)) (by decide)
  have hnan : ds ≠ ['n', 'a', 'n'] := by
    rintro rfl
    exact absurd (h2 'a' (by simp)) (by decide)
  rw [if_neg hinf, if_neg hnan, parseDecCore_digits h1 h2]
  simp

theorem parseDecCore_dot {a b : List Char} (ha : a ≠ [])
    (h2 : ∀ c ∈ a, c ∈ digitSet) (h3 : ∀ c ∈ b, c ∈ digitSet) :
    parseDecCore (a ++ '.' :: b) ≠ none := by
  simp only [parseDecCore]
  rw [takeWhile_append_not _ _ _ _ (fun c hc => isDig_of_mem (h2 c hc)) (by decide),
    dropWhile_append_not _ _ _ _ (fun c hc => isDig_of_mem (h2 c hc)) (by decide)]
  show (let fp := b.takeWhile isDig
    let rest3 := b.dropWhile isDig
    if a = [] ∧ fp = [] then none
    else match parseExp rest3 with
      | some e => some (decValue (natVal a) (natVal fp) fp.length e)
      | none => none) ≠ none
  rw [takeWhile_eq_self_of (fun c hc => isDig_of_mem (h3 c hc)),
    dropWhile_eq_nil_of (fun c hc => isDig_of_mem (h3 c hc))]
  rw [if_neg (fun hand => ha hand.1)]
  show some _ ≠ none
  simp

theorem pyfloatSigned_dot {a b : List Char} (ha : a ≠ [])
    (h2 : ∀ c ∈ a, c ∈ digitSet) (h3 : ∀ c ∈ b, c ∈ digitSet) (neg : Bool) :
    pyfloatSigned neg (a ++ '.' :: b) ≠ none := by
  simp only [pyfloatSigned]
  have hdot : '.' ∈ (a ++ '.' :: b).map Char.toLower :=
    List.mem_map.mpr ⟨'.', by simp, rfl⟩
  have hinf : ¬((a ++ '.' :: b).map Char.toLower = ['i', 'n', 'f'] ∨
      (a ++ '.' :: b).map Char.toLower = ['i', 'n', 'f', 'i', 'n', 'i', 't', 'y']) := by
    rintro (he | he) <;> (rw [he] at hdot; exact absurd hdot (by decide))
  have hnan : (a ++ '.' :: b).map Char.toLower ≠ ['n', 'a', 'n'] := by
    intro he
    rw [he] at hdot
    exact absurd hdot (by decide)
  rw [if_neg hinf, if_neg hnan]
  cases hc : parseDecCore (a ++ '.' :: b) with
  | none => exact absurd hc (parseDecCore_dot ha h2 h3)
  | some q => simp

theorem pyfloat_data_cons_digit {s : String} {d : Char} {ds : List Char}
    (hs : s.data = d :: ds) (hd : d ∈ digitSet) :
    pyfloat s = pyfloatSigned false (d :: ds) := by
  unfold pyfloat
  rw [hs]
  have hd1 : d ≠ '+' := by fin_cases hd <;> decide
  have hd2 : d ≠ '-' := by fin_cases hd <;> decide
  simp [hd1, hd2]

theorem pyfloat_data_neg {s : String} {ds : List Char} (hs : s.data = '-' :: ds) :
    pyfloat s = pyfloatSigned true ds := by
  unfold pyfloat
  rw [hs]
  simp

/-- Every string emitted for a metrics column is numeric: Python `float`
accepts it. -/
theorem pyfloat_renderPyNum (p : PyNum) : pyfloat (renderPyNum p) ≠ none := by
  cases p with
  | int z =>
    show pyfloat (intRepr z) ≠ none
    have hdata := intRepr_data z
    split at hdata
    · rw [pyfloat_data_neg hdata]
      exact pyfloatSigned_digits (natDigits_ne_nil _) (natDigits_all_digit _) true
    · obtain ⟨d, ds, hds⟩ : ∃ d ds, natDigits z.natAbs = d :: ds := by
        cases hnd : natDigits z.natAbs with
        | nil => exact absurd hnd (natDigits_ne_nil _)
        | cons d ds => exact ⟨d, ds, rfl⟩
      have hd : d ∈ digitSet := natDigits_all_digit _ d (by rw [hds]; simp)
      rw [pyfloat_data_cons_digit (by rw [hdata, hds]) hd, ← hds]
      exact pyfloatSigned_digits (natDigits_ne_nil _) (natDigits_all_digit _) false
  | fl f =>
    cases f with
    | finite q =>
      show pyfloat (floatRepr q) ≠ none
      have hdata := floatRepr_data q
      by_cases hq : q.num < 0
      · rw [if_pos hq] at hdata
        have hdata2 : (floatRepr q).data =
            '-' :: (natDigits (q.num.natAbs * 100 / q.den / 100) ++
              '.' :: fracDigits (q.num.natAbs * 100 / q.den % 100)) := by
          rw [hdata]
          simp
        rw [pyfloat_data_neg hdata2]
        exact pyfloatSigned_dot (natDigits_ne_nil _) (natDigits_all_digit _)
          (fracDigits_all_digit _) true
      · rw [if_neg hq] at hdata
        have hdata2 : (floatRepr q).data =
            natDigits (q.num.natAbs * 100 / q.den / 100) ++
              '.' :: fracDigits (q.num.natAbs * 100 / q.den % 100) := by
          rw [hdata]
          simp
        obtain ⟨d, ds, hds⟩ : ∃ d ds,
            natDigits (q.num.natAbs * 100 / q.den / 100) = d :: ds := by
          cases hnd : natDigits (q.num.natAbs * 100 / q.den / 100) with
          | nil => exact absurd hnd (natDigits_ne_nil _)
          | cons d ds => exact ⟨d, ds, rfl⟩
        have hd : d ∈ digitSet := natDigits_all_digit _ d (by rw [hds]; simp)
        rw [pyfloat_data_cons_digit (by rw [hdata2, hds, List.cons_append]) hd,
          show d :: (ds ++ '.' :: fracDigits (q.num.natAbs * 100 / q.den % 100)) =
            (d :: ds) ++ '.' :: fracDigits (q.num.natAbs * 100 / q.den % 100) from rfl,
          ← hds]
        exact pyfloatSigned_dot (natDigits_ne_nil _) (natDigits_all_digit _)
          (fracDigits_all_digit _) false
    | inf => decide
    | neginf => decide
    | nan => decide

/-! ### Claim theorems: the metrics columns -/

/-- The conversion collapses empty, sentinel, and unparsable input to the
Python int `0`. -/
theorem safe_convert_bad_input {v : String}
    (hbad : v = "" ∨ pystrip v ∈ (["", "nan", "None", "null"] : List String) ∨
      pyfloat (pystrip v) = none) :
    _safe_convert v = .int 0 := by
  unfold _safe_convert
  rcases hbad with hb | hb | hb
  · rw [if_pos (Or.inl hb)]
  · rw [if_pos (Or.inr hb)]
  · split
    · rfl
    · rw [hb]

/-- C1: for every row and metrics field whose raw value is empty, a
sentinel, or a string `float(...)` rejects, the shaped record stores the
string `"0"` for that field (and, the conversion being a total function,
no exception is raised). -/
theorem metrics_emit_zero_of_bad_input (row : Row) (c h : String)
    (hm : (c, h) ∈ metrics_mapping)
    (hbad : pyget row c "0" = "" ∨
      pystrip (pyget row c "0") ∈ (["", "nan", "None", "null"] : List String) ∨
      pyfloat (pystrip (pyget row c "0")) = none) :
    (prepare_simple_data row).lookup ("metrics:" ++ h) = some "0" := by
  rw [lookup_prepare_metrics row c h hm, safe_convert_bad_input hbad]
  decide

/-- Witness for C1: the non-numeric cell `"N/A"` in `Likes` is stored as
`"0"`. -/
theorem metrics_emit_zero_of_bad_input_witness :
    (prepare_simple_data [("Likes", "N/A")]).lookup ("metrics:" ++ "likes") = some "0" :=
  metrics_emit_zero_of_bad_input [("Likes", "N/A")] "Likes" "likes" (by decide)
    (Or.inr (Or.inr (by decide)))

/-- C7: shaping is total on arbitrary rows — the row key is never empty and
every metrics column is present in the shaped record, whatever the input
fields are; the embedding's functions model every fallible Python
operation (`float`, `int`) with `Option` and the `except` handlers with the
`none` branches, so no exception can escape. -/
theorem shaper_never_raises (row : Row) (counter : Nat) :
    generate_simple_row_key row counter ≠ "" ∧
    ((prepare_simple_data row).lookup ("metrics:" ++ "likes")).isSome = true ∧
    ((prepare_simple_data row).lookup ("metrics:" ++ "comments")).isSome = true ∧
    ((prepare_simple_data row).lookup ("metrics:" ++ "shares")).isSome = true ∧
    ((prepare_simple_data row).lookup ("metrics:" ++ "impressions")).isSome = true ∧
    ((prepare_simple_data row).lookup ("metrics:" ++ "reach")).isSome = true ∧
    ((prepare_simple_data row).lookup ("metrics:" ++ "engagement_rate")).isSome = true := by
  refine ⟨?_, ?_, ?_, ?_, ?_, ?_, ?_⟩
  · intro he
    have hd := generate_key_data row counter
    rw [he] at hd
    exact absurd hd.symm (by simp)
  · rw [lookup_prepare_metrics row "Likes" "likes" (by decide)]; rfl
  · rw [lookup_prepare_metrics row "Comments" "comments" (by decide)]; rfl
  · rw [lookup_prepare_metrics row "Shares" "shares" (by decide)]; rfl
  · rw [lookup_prepare_metrics row "Impressions" "impressions" (by decide)]; rfl
  · rw [lookup_prepare_metrics row "Reach" "reach" (by decide)]; rfl
  · rw [lookup_prepare_metrics row "Engagement Rate" "engagement_rate" (by decide)]; rfl

/-- C10: the shaped record is never empty: every row, even an empty one,
yields all six metrics columns, each holding a numeric string (a string
Python `float(...)` accepts). -/
theorem metrics_always_present_numeric (row : Row) :
    prepare_simple_data row ≠ [] ∧
    (∃ v, (prepare_simple_data row).lookup ("metrics:" ++ "likes") = some v ∧
      pyfloat v ≠ none) ∧
    (∃ v, (prepare_simple_data row).lookup ("metrics:" ++ "comments") = some v ∧
      pyfloat v ≠ none) ∧
    (∃ v, (prepare_simple_data row).lookup ("metrics:" ++ "shares") = some v ∧
      pyfloat v ≠ none) ∧
    (∃ v, (prepare_simple_data row).lookup ("metrics:" ++ "impressions") = some v ∧
      pyfloat v ≠ none) ∧
    (∃ v, (prepare_simple_data row).lookup ("metrics:" ++ "reach") = some v ∧
      pyfloat v ≠ none) ∧
    (∃ v, (prepare_simple_data row).lookup ("metrics:" ++ "engagement_rate") = some v ∧
      pyfloat v ≠ none) := by
  refine ⟨?_, ?_, ?_, ?_, ?_, ?_, ?_⟩
  · intro he
    have h1 := lookup_prepare_metrics row "Likes" "likes" (by decide)
    rw [he] at h1
    exact absurd h1 (by simp [List.lookup])
  all_goals first
  | exact ⟨_, lookup_prepare_metrics row "Likes" "likes" (by decide),
      pyfloat_renderPyNum _⟩
  | exact ⟨_, lookup_prepare_metrics row "Comments" "comments" (by decide),
      pyfloat_renderPyNum _⟩
  | exact ⟨_, lookup_prepare_metrics row "Shares" "shares" (by decide),
      pyfloat_renderPyNum _⟩
  | exact ⟨_, lookup_prepare_metrics row "Impressions" "impressions" (by decide),
      pyfloat_renderPyNum _⟩
  | exact ⟨_, lookup_prepare_metrics row "Reach" "reach" (by decide),
      pyfloat_renderPyNum _⟩
  | exact ⟨_, lookup_prepare_metrics row "Engagement Rate" "engagement_rate" (by decide),
      pyfloat_renderPyNum _⟩

/-! ### Claim theorems: text sentinels and budgets -/

/-- C4 (counterexample): the text-field sentinel list at hbase_loader.py
line 159 is `['nan', 'none', '']` — it does not contain `"null"`, so the
value `"null"` is stored, not omitted. -/
theorem null_text_not_omitted :
    (prepare_simple_data [("Platform", "null")]).lookup "cf:platform" = some "null" := by
  decide

/-- C4 (amended): a text field whose trimmed value lowercases to one of
`""`, `"nan"`, `"none"` is omitted from the shaped record entirely
(`"null"` is not in this sentinel list). -/
theorem text_sentinel_omitted (row : Row) (c h : String) (hcm : (c, h) ∈ basic_mapping)
    (hsent : pylower (pystrip (pyget row c "")) ∈ (["nan", "none", ""] : List String)) :
    (prepare_simple_data row).lookup ("cf:" ++ h) = none := by
  rw [prepare_eq_filter]
  have htxt : ((shapeText row).filter (fun kv => keepByte kv.2)).lookup ("cf:" ++ h) = none := by
    apply lookup_eq_none_of
    intro p hp
    obtain ⟨k, v⟩ := p
    have hp2 := (List.mem_filter.mp hp).1
    obtain ⟨q, hq, hcond, hk, _⟩ := (mem_shapeText_iff row k v).mp hp2
    rw [beq_eq_false_iff_ne]
    intro heq
    rw [hk] at heq
    have hh : h = q.2 := cf_append_inj heq
    have hq1 : q.1 = c := by
      have hinj : ∀ p1 ∈ basic_mapping, ∀ p2 ∈ basic_mapping, p1.2 = p2.2 → p1.1 = p2.1 := by
        decide
      exact hinj q hq (c, h) hcm (by rw [← hh])
    rw [hq1] at hcond
    exact absurd hsent hcond.2
  have hmet : ((shapeMetrics row).filter (fun kv => keepByte kv.2)).lookup ("cf:" ++ h) = none := by
    apply lookup_eq_none_of
    intro p hp
    have hp2 := (List.mem_filter.mp hp).1
    obtain ⟨ch, _, he⟩ := List.mem_map.mp hp2
    rw [beq_eq_false_iff_ne]
    intro heq
    have hk : ("metrics:" ++ ch.2) = p.1 := congrArg Prod.fst he
    rw [← hk] at heq
    exact cf_ne_metrics h ch.2 heq
  rw [lookup_append_left_none htxt, hmet]

/-- Witness for C4 (amended): `" NaN "` in `Platform` is omitted. -/
theorem text_sentinel_omitted_witness :
    (prepare_simple_data [("Platform", " NaN ")]).lookup ("cf:" ++ "platform") = none :=
  text_sentinel_omitted [("Platform", " NaN ")] "Platform" "platform" (by decide) (by decide)

theorem lookup_some_mem {α β : Type} [BEq α] [LawfulBEq α] {l : List (α × β)} {a : α} {v : β}
    (h : l.lookup a = some v) : (a, v) ∈ l := by
  induction l with
  | nil => exact absurd h (by simp [List.lookup])
  | cons p t ih =>
    obtain ⟨k, b⟩ := p
    simp only [List.lookup] at h
    cases hb : a == k with
    | true =>
      rw [hb] at h
      have hv : b = v := by simpa using h
      have ha : a = k := eq_of_beq hb
      subst hv ha
      exact List.mem_cons_self _ _
    | false =>
      rw [hb] at h
      exact List.mem_cons_of_mem _ (ih h)

/-- C5: every text column value the shaper emits obeys its per-field
character budget (content 500, interests 200, location 100, other text
fields 50), measured after trimming. -/
theorem text_budget_bound (row : Row) (k v : String)
    (hmem : (k, v) ∈ prepare_simple_data row) (hcf : k.data.take 3 = ['c', 'f', ':']) :
    v.data.length ≤ cfBudget k := by
  rw [prepare_eq_filter] at hmem
  rcases List.mem_append.mp hmem with hmem | hmem
  · have hp2 := (List.mem_filter.mp hmem).1
    obtain ⟨q, hq, _, hk, hv⟩ := (mem_shapeText_iff row k v).mp hp2
    subst hk
    subst hv
    have hlen : (pyTake (pystrip (pyget row q.1 "")) (textLimit q.1)).data.length ≤
        textLimit q.1 := by
      show (List.take _ _).length ≤ _
      rw [List.length_take]
      exact min_le_left _ _
    refine le_trans hlen ?_
    fin_cases hq <;> decide
  · exfalso
    have hp2 := (List.mem_filter.mp hmem).1
    obtain ⟨ch, _, he⟩ := List.mem_map.mp hp2
    have hk : ("metrics:" ++ ch.2) = k := congrArg Prod.fst he
    rw [← hk, data_append, List.take_append_of_le_length (by decide)] at hcf
    exact absurd hcf (by decide)

/-- Witness for C5: the concrete shaped row stores `"hello"` under
`cf:post_content`, within budget. -/
theorem text_budget_bound_witness :
    ("hello" : String).data.length ≤ cfBudget "cf:post_content" := by
  have hl : (prepare_simple_data [("Post Content", "hello")]).lookup "cf:post_content" =
      some "hello" := by decide
  exact text_budget_bound [("Post Content", "hello")] "cf:post_content" "hello"
    (lookup_some_mem hl) (by decide)

/-! ### Claim theorems: the integer/decimal split of `_safe_convert` -/

theorem absLt_iff (q : ℚ) :
    (q.num.natAbs < 2147483647 * q.den) ↔ |q| < (2147483647 : ℚ) := by
  have hden : (0 : ℚ) < (q.den : ℚ) := by exact_mod_cast q.den_pos
  have habs : |q| = (q.num.natAbs : ℚ) / (q.den : ℚ) := by
    conv_lhs => rw [← Rat.num_div_den q]
    rw [abs_div, abs_of_pos hden]
    congr 1
    rw [Int.cast_natAbs, Int.cast_abs]
  constructor
  · intro h
    rw [habs, div_lt_iff₀ hden]
    exact_mod_cast h
  · intro h
    rw [habs, div_lt_iff₀ hden] at h
    exact_mod_cast h

/-- C6 (counterexample): `"2147483647"` parses to a whole number inside the
signed 32-bit range (`2 ^ 31 - 1` is the int32 maximum), yet `_safe_convert`
emits `"2147483647.0"` — a decimal string, not an integer string — because
the guard is the strict `abs(v) < 2147483647`. -/
theorem int32_boundary_not_integer_string :
    renderPyNum (_safe_convert "2147483647") = "2147483647.0" ∧
    pyfloat (pystrip "2147483647") = some (.finite ((2147483647 : ℕ) : ℚ)) ∧
    ((2147483647 : ℕ) : ℚ).den = 1 ∧ ((2147483647 : ℕ) : ℚ) ≤ 2 ^ 31 - 1 ∧
    '.' ∈ (renderPyNum (_safe_convert "2147483647")).data := by
  refine ⟨by decide, by decide, by decide, ?_, by decide⟩
  norm_num

/-- C6 (amended): for input parsing to a finite value `q`, the conversion
emits an integer string exactly when `q` is whole and `|q|` is strictly
below `2147483647` (not the full int32 range); otherwise it emits the value
rounded to 2 decimal places. -/
theorem numeric_integer_iff_strict (s : String) (q : ℚ)
    (hp : pyfloat (pystrip s) = some (.finite q)) :
    ((∃ z : ℤ, renderPyNum (_safe_convert s) = intRepr z) ↔
      (q.den = 1 ∧ |q| < 2147483647)) ∧
    (¬(q.den = 1 ∧ |q| < 2147483647) →
      renderPyNum (_safe_convert s) = floatRepr (pyRound2 q)) := by
  have hguard : ¬(s = "" ∨ pystrip s ∈ (["", "nan", "None", "null"] : List String)) := by
    rintro (rfl | hmem)
    · rw [show pystrip "" = "" from rfl, show pyfloat "" = none from rfl] at hp
      exact Option.noConfusion hp
    · have h4 : pystrip s = "" ∨ pystrip s = "nan" ∨ pystrip s = "None" ∨
          pystrip s = "null" := by simpa using hmem
      rcases h4 with he | he | he | he <;> rw [he] at hp
      · rw [show pyfloat "" = none from rfl] at hp
        exact Option.noConfusion hp
      · rw [show pyfloat "nan" = some PyFloat.nan from rfl] at hp
        exact PyFloat.noConfusion (Option.some.inj hp)
      · rw [show pyfloat "None" = none from rfl] at hp
        exact Option.noConfusion hp
      · rw [show pyfloat "null" = none from rfl] at hp
        exact Option.noConfusion hp
  have hbeq : (isIntegerF (.finite q) && absLtInt32 (.finite q)) = true ↔
      (q.den = 1 ∧ |q| < 2147483647) := by
    simp [isIntegerF, absLtInt32, absLt_iff]
  unfold _safe_convert
  rw [if_neg hguard, hp]
  dsimp only
  cases hb : (isIntegerF (.finite q) && absLtInt32 (.finite q)) with
  | true =>
    refine ⟨⟨fun _ => hbeq.mp hb, fun _ => ⟨q.num, rfl⟩⟩, fun hcon => absurd (hbeq.mp hb) hcon⟩
  | false =>
    refine ⟨⟨?_, fun hcon => ?_⟩, fun _ => rfl⟩
    · rintro ⟨z, hz⟩
      exfalso
      have hdot : '.' ∈ (floatRepr (pyRound2 q)).data := by
        rw [floatRepr_data]
        simp
      have hz2 : floatRepr (pyRound2 q) = intRepr z := by simpa using hz
      rw [hz2, intRepr_data] at hdot
      have hds : ('.' : Char) ∈ digitSet → False := by decide
      split at hdot
      · rcases List.mem_cons.mp hdot with h1 | h1
        · exact absurd h1 (by decide)
        · exact hds (natDigits_all_digit _ _ h1)
      · exact hds (natDigits_all_digit _ _ hdot)
    · have := hbeq.mpr hcon
      rw [hb] at this
      exact Bool.noConfusion this

/-- Witness for C6 (amended): input `"3.14159"` is rounded and rendered as
`"3.14"`. -/
theorem numeric_integer_iff_strict_witness :
    renderPyNum (_safe_convert "3.14159") = "3.14" := by
  have h := (numeric_integer_iff_strict "3.14159" (mkRat 314159 100000) (by decide)).2
    (fun hcon => absurd hcon.1 (by decide))
  rw [h]
  decide

/-! ### Claim theorems: the SQLite variant disagrees on zero fill -/

theorem pyintSigned_imp {neg : Bool} {ds : List Char} (h : pyintSigned neg ds ≠ none) :
    pyfloatSigned neg ds ≠ none := by
  unfold pyintSigned at h
  by_cases hc : ds ≠ [] ∧ ds.all isDig
  · obtain ⟨h1, h2⟩ := hc
    have hmem : ∀ c ∈ ds, c ∈ digitSet :=
      fun c hc2 => mem_of_isDig (List.all_eq_true.mp h2 c hc2)
    exact pyfloatSigned_digits h1 hmem neg
  · rw [if_neg hc] at h
    exact absurd rfl h

theorem pyfloat_ne_none_of_pyint {s : String} (h : pyint s ≠ none) : pyfloat s ≠ none := by
  unfold pyint at h
  unfold pyfloat
  cases hd : s.data with
  | nil => rw [hd] at h; exact absurd rfl h
  | cons d r =>
    rw [hd] at h
    replace h : (if d = '+' then pyintSigned false r
        else if d = '-' then pyintSigned true r
        else pyintSigned false (d :: r)) ≠ none := h
    show (if d = '+' then pyfloatSigned false r
      else if d = '-' then pyfloatSigned true r
      else pyfloatSigned false (d :: r)) ≠ none
    by_cases h1 : d = '+'
    · rw [if_pos h1] at h ⊢
      exact pyintSigned_imp h
    · rw [if_neg h1] at h ⊢
      by_cases h2 : d = '-'
      · rw [if_pos h2] at h ⊢
        exact pyintSigned_imp h
      · rw [if_neg h2] at h ⊢
        exact pyintSigned_imp h

/-- C9 (counterexample): on empty or unparsable input the HBase variant
stores the int `0`, but the SQLite variant returns `None` (stored as SQL
`NULL`), so the "zero everywhere" policy does not hold across variants. -/
theorem sqlite_none_vs_hbase_zero :
    convert_to_number "" = none ∧ convert_to_number "N/A" = none ∧
    _safe_convert "" = PyNum.int 0 ∧ _safe_convert "N/A" = PyNum.int 0 := by
  decide

/-- C9 (amended): on every empty, sentinel, or unparsable input the two
variants diverge systematically: `_safe_convert` yields `0` while
`convert_to_number` yields `None`; they agree only that no exception
propagates. -/
theorem zero_fill_divergence (s : String)
    (h : s = "" ∨ pystrip s ∈ (["", "nan", "None"] : List String) ∨
      pyfloat (pystrip s) = none) :
    _safe_convert s = PyNum.int 0 ∧ convert_to_number s = none := by
  constructor
  · apply safe_convert_bad_input
    rcases h with hb | hb | hb
    · exact Or.inl hb
    · refine Or.inr (Or.inl ?_)
      have h3 : pystrip s = "" ∨ pystrip s = "nan" ∨ pystrip s = "None" := by simpa using hb
      rcases h3 with he | he | he <;> simp [he]
    · exact Or.inr (Or.inr hb)
  · unfold convert_to_number
    rcases h with hb | hb | hb
    · rw [if_pos (Or.inl hb)]
    · rw [if_pos (Or.inr hb)]
    · split
      · rfl
      · split
        · rw [hb]
        · have hpint : pyint (pystrip s) = none := by
            cases hpi : pyint (pystrip s) with
            | none => rfl
            | some z =>
              exact absurd hb (pyfloat_ne_none_of_pyint (by rw [hpi]; simp))
          rw [hpint]

/-- Witness for C9 (amended): at `"N/A"` the HBase loader stores `0` and
the SQLite loader stores `None`. -/
theorem zero_fill_divergence_witness :
    _safe_convert "N/A" = PyNum.int 0 ∧ convert_to_number "N/A" = none :=
  zero_fill_divergence "N/A" (Or.inr (Or.inr (by decide)))

/-! ### Claim theorems: the hashed key mode (modelled from the spec) -/

/-- C8: the hashed key mode is deterministic — equal `(platform, post_id)`
pairs give the identical 8-character digest — and the key composes
`"{date:YYYYMMDD}_{platform}_{hashdigest}"`, the date falling back to the
fixed default when `post_timestamp` fails to parse. -/
theorem hashed_key_deterministic_format (r1 r2 : Row)
    (hp : pyget r1 "Platform" "unknown" = pyget r2 "Platform" "unknown")
    (hi : pyget r1 "Post ID" "" = pyget r2 "Post ID" "") :
    hexDigest8 (pyget r1 "Platform" "unknown" ++ "_" ++ pyget r1 "Post ID" "") =
      hexDigest8 (pyget r2 "Platform" "unknown" ++ "_" ++ pyget r2 "Post ID" "") ∧
    (∀ row : Row, makeKeyHashed row =
      (parseTsDate (pyget row "Post Timestamp" "")).getD defaultDateStr ++ "_" ++
        pyget row "Platform" "unknown" ++ "_" ++
        hexDigest8 (pyget row "Platform" "unknown" ++ "_" ++ pyget row "Post ID" "")) ∧
    (∀ s : String, (hexDigest8 s).data.length = 8) ∧
    (∀ row : Row, parseTsDate (pyget row "Post Timestamp" "") = none →
      makeKeyHashed row = defaultDateStr ++ "_" ++ pyget row "Platform" "unknown" ++ "_" ++
        hexDigest8 (pyget row "Platform" "unknown" ++ "_" ++ pyget row "Post ID" "")) := by
  refine ⟨by rw [hp, hi], fun row => rfl, fun s => by simp [hexDigest8], fun row hn => ?_⟩
  unfold makeKeyHashed
  rw [hn]
  rfl

/-- Witness for C8: two rows sharing platform and post id but differing
elsewhere produce the same digest. -/
theorem hashed_key_deterministic_format_witness :
    hexDigest8 (pyget [("Platform", "Instagram"), ("Post ID", "p1"), ("Likes", "5")]
        "Platform" "unknown" ++ "_" ++
      pyget [("Platform", "Instagram"), ("Post ID", "p1"), ("Likes", "5")] "Post ID" "") =
    hexDigest8 (pyget [("Platform", "Instagram"), ("Post ID", "p1"), ("Comments", "9")]
        "Platform" "unknown" ++ "_" ++
      pyget [("Platform", "Instagram"), ("Post ID", "p1"), ("Comments", "9")] "Post ID" "") :=
  (hashed_key_deterministic_format _ _ (by decide) (by decide)).1

end Gridy
